import Mathlib

/-!
# Verification of the telegram-youtube-downloader core

Shallow embedding, in Lean 4, of the core components of the
telegram-youtube-downloader repository:

* the ephemeral URL token store (`_store_url` / `_get_url` in `bot.py`),
* the download progress hook (`DownloadProgress.hook` in `downloader.py`),
* the progress-throttling loop (`update_progress` in `bot.py`),
* the quality → format-selector map (`download_video` in `downloader.py`),
* the post-download re-encode step (`download_video` in `downloader.py`),
* the static file server (`handle_download` / `handle_index` in
  `fileserver.py`).

Python dicts preserve insertion order, so the token store is embedded as an
association list; filesystem state is embedded as a function from resolved
path segments to optional entries; the external `ffmpeg` subprocess and the
`hashlib.md5` digest are abstracted as function parameters constrained by
frame conditions.
-/

namespace YtBot

/-! ## Token store (`bot.py`, `_store_url` / `_get_url`)

`_url_store` is a Python dict (insertion ordered); we embed it as an
association list in insertion order.  `_url_store[key] = url` replaces the
value in place when the key is present (keeping its position) and appends
otherwise. -/

/-- Capacity bound `_URL_STORE_MAX` from `bot.py`. -/
def URL_STORE_MAX : Nat := 100

/-- The store state: key/url pairs in insertion order (oldest first). -/
abbrev Store := List (String × String)

/-- Python dict assignment `d[k] = v`: replace in place if present, else
append at the end. -/
def storeAssign : Store → String → String → Store
  | [], k, v => [(k, v)]
  | (k', v') :: rest, k, v =>
    if k' = k then (k, v) :: rest else (k', v') :: storeAssign rest k v

/-- The key derived for a URL: `hashlib.md5(url.encode()).hexdigest()[:10]`.
The digest function is a parameter (`hashlib` is the Python standard
library, not repository code); the repository takes its first 10
characters. -/
def storeKey (md5hex : String → String) (url : String) : String :=
  (md5hex url).take 10

/-- Embeds `_store_url`: evict the oldest half when at/above capacity, then insert
`key ↦ url`; returns (new store, key). -/
def store_url (md5hex : String → String) (store : Store) (url : String) :
    Store × String :=
  let store' :=
    if URL_STORE_MAX ≤ store.length then
      store.drop (store.length / 2)
    else store
  let key := storeKey md5hex url
  (storeAssign store' key url, key)

/-- Embeds `_get_url`: pure lookup, `None` when absent. -/
def get_url (store : Store) (key : String) : Option String :=
  (store.find? (fun p => p.1 = key)).map (fun p => p.2)

/-- Folding a sequence of `_store_url` calls over an initial store. -/
def store_url_seq (md5hex : String → String) (store : Store)
    (urls : List String) : Store :=
  urls.foldl (fun st u => (store_url md5hex st u).1) store

theorem get_storeAssign (s : Store) (k v : String) :
    get_url (storeAssign s k v) k = some v := by
  induction s with
  | nil => simp [storeAssign, get_url, List.find?]
  | cons hd tl ih =>
    by_cases h : hd.1 = k
    · simp [storeAssign, h, get_url, List.find?]
    · simp only [storeAssign]
      rw [if_neg h]
      simpa [get_url, List.find?, h] using ih

theorem storeAssign_length_le (s : Store) (k v : String) :
    (storeAssign s k v).length ≤ s.length + 1 := by
  induction s with
  | nil => simp [storeAssign]
  | cons hd tl ih =>
    simp only [storeAssign]
    split
    · simp
    · simpa using Nat.succ_le_succ ih

theorem store_url_length_le (md5hex : String → String) (store : Store)
    (url : String) (h : store.length ≤ 100) :
    ((store_url md5hex store url).1).length ≤ 100 := by
  simp only [store_url]
  by_cases hc : URL_STORE_MAX ≤ store.length
  · have hlen : store.length = 100 := Nat.le_antisymm h hc
    rw [if_pos hc]
    calc (storeAssign (store.drop (store.length / 2)) (storeKey md5hex url) url).length
        ≤ (store.drop (store.length / 2)).length + 1 := storeAssign_length_le _ _ _
      _ = store.length - store.length / 2 + 1 := by rw [List.length_drop]
      _ ≤ 100 := by omega
  · rw [if_neg hc]
    have h99 : store.length ≤ 99 := by
      simp only [URL_STORE_MAX] at hc
      omega
    calc (storeAssign store (storeKey md5hex url) url).length
        ≤ store.length + 1 := storeAssign_length_le _ _ _
      _ ≤ 100 := by omega

theorem store_url_seq_length_le (md5hex : String → String) (urls : List String)
    (store : Store) (h : store.length ≤ 100) :
    (store_url_seq md5hex store urls).length ≤ 100 := by
  induction urls generalizing store with
  | nil => simpa [store_url_seq] using h
  | cons u rest ih =>
    simp only [store_url_seq, List.foldl_cons] at *
    exact ih _ (store_url_length_le md5hex store u h)

/-- C3: `Get(Put(url))` returns `url`, and the key derived by `Put` depends
only on the URL (same URL gives the same key regardless of store state),
being the first 10 characters of the content-hash digest of the URL. -/
theorem store_roundtrip_and_key_deterministic (md5hex : String → String)
    (store store' : Store) (url : String) :
    get_url (store_url md5hex store url).1 (store_url md5hex store url).2
        = some url ∧
    (store_url md5hex store url).2 = (store_url md5hex store' url).2 ∧
    (store_url md5hex store url).2 = (md5hex url).take 10 := by
  refine ⟨?_, ?_, ?_⟩
  · simp only [store_url]
    exact get_storeAssign _ _ _
  · simp only [store_url]
  · simp only [store_url, storeKey]

/-- C4: after any sequence of `Put` operations from the empty store the
store has at most 100 entries; a single `Put` preserves the ≤ 100 bound;
and a `Put` performed at capacity (length exactly 100) first drops the 50
oldest entries (the first half in insertion order) before inserting. -/
theorem store_capacity (md5hex : String → String) (store : Store)
    (url : String) (urls : List String) :
    (store.length ≤ 100 → ((store_url md5hex store url).1).length ≤ 100) ∧
    (store.length = 100 →
      (store_url md5hex store url).1 =
        storeAssign (store.drop 50) (storeKey md5hex url) url) ∧
    (store_url_seq md5hex [] urls).length ≤ 100 := by
  refine ⟨store_url_length_le md5hex store url, ?_,
    store_url_seq_length_le md5hex urls [] (by simp)⟩
  intro h100
  have hc : URL_STORE_MAX ≤ store.length := by rw [h100]; decide
  simp only [store_url]
  rw [if_pos hc, h100]

/-- Witness for C4 at a concrete 100-entry store. -/
theorem store_capacity_witness :
    ((store_url (fun _ => "aabbccddeeff")
        (List.replicate 100 ("k", "v")) "u").1).length ≤ 100 ∧
    (store_url (fun _ => "aabbccddeeff")
        (List.replicate 100 ("k", "v")) "u").1 =
      storeAssign ((List.replicate 100 (("k", "v") : String × String)).drop 50)
        (storeKey (fun _ => "aabbccddeeff") "u") "u" := by
  have h := store_capacity (fun _ => "aabbccddeeff")
    (List.replicate 100 ("k", "v")) "u" []
  exact ⟨h.1 (by simp), h.2.1 (by simp)⟩

/-! ## Progress hook (`downloader.py`, `DownloadProgress.hook`)

The raw event dict from the extraction engine is embedded as a record of
the keys the hook reads; `d.get("total_bytes") or
d.get("total_bytes_estimate", 0)` falls through to the estimate both when
`total_bytes` is absent and when it is 0 (Python falsiness). -/

/-- The fields of the raw progress event dict that `hook` reads. -/
structure RawEvent where
  status : String
  total_bytes : Option Nat
  total_bytes_estimate : Option Nat
  downloaded_bytes : Option Nat

/-- Embeds `d.get("total_bytes") or d.get("total_bytes_estimate", 0)`. -/
def eventTotal (d : RawEvent) : Nat :=
  match d.total_bytes with
  | some n => if n = 0 then d.total_bytes_estimate.getD 0 else n
  | none => d.total_bytes_estimate.getD 0

/-- The mutable state of a `DownloadProgress` object: `last_percent`
(initially `-1`). -/
structure HookState where
  last_percent : Int
deriving DecidableEq, Repr

/-- Embeds `DownloadProgress.hook`: returns the updated state together with the
callback invocation it performs (`none` when the callback is not called).
`int(downloaded / total * 100)` truncates the exact quotient, embedded as
natural division `downloaded * 100 / total`. -/
def hook (st : HookState) (d : RawEvent) :
    HookState × Option (Int × String) :=
  if d.status = "downloading" then
    let total := eventTotal d
    let downloaded := d.downloaded_bytes.getD 0
    if 0 < total then
      let percent : Int := (downloaded * 100 / total : Nat)
      if percent ≠ st.last_percent then
        (⟨percent⟩, some (percent, "downloading"))
      else (st, none)
    else (st, none)
  else if d.status = "finished" then
    (st, some (100, "processing"))
  else (st, none)

/-- C10: a `downloading` event whose effective total (actual, else
estimate, absent values defaulting to 0) is zero causes no callback
invocation and leaves the hook state unchanged, so the guarded division is
never reached with a zero divisor. -/
theorem hook_zero_total_no_callback (st : HookState) (d : RawEvent)
    (hs : d.status = "downloading") (ht : eventTotal d = 0) :
    hook st d = (st, none) := by
  simp [hook, hs, ht]

/-- Witness for C10: event with `total_bytes = 0` and no estimate. -/
theorem hook_zero_total_no_callback_witness :
    hook ⟨-1⟩ ⟨"downloading", some 0, none, some 37⟩ = (⟨-1⟩, none) :=
  hook_zero_total_no_callback ⟨-1⟩ ⟨"downloading", some 0, none, some 37⟩
    rfl rfl

/-- C7 counterexample: when the engine supplies only a total-bytes estimate
smaller than the downloaded byte count, the hook delivers a percent value
greater than 100 (here 200) to the callback, contradicting the claimed
0–100 range. -/
theorem hook_percent_can_exceed_100 :
    (hook ⟨-1⟩ ⟨"downloading", none, some 1, some 2⟩).2
        = some (200, "downloading") ∧
    ¬ (200 : Int) ≤ 100 := by
  constructor
  · rfl
  · decide

/-- C7 (amended): every percent the hook delivers is a nonnegative
integer; it is at most 100 whenever the downloaded byte count does not
exceed the effective total, and the terminal `finished` notification
always carries exactly 100. -/
theorem hook_emission_cases (st : HookState) (d : RawEvent) :
    (hook st d).2 = none ∨
    ((hook st d).2 =
        some (((d.downloaded_bytes.getD 0 * 100 / eventTotal d : Nat) : Int),
          "downloading") ∧ 0 < eventTotal d) ∨
    (hook st d).2 = some (100, "processing") := by
  simp only [hook]
  by_cases hs : d.status = "downloading"
  · simp only [hs, if_true]
    by_cases ht : 0 < eventTotal d
    · simp only [if_pos ht]
      by_cases hp :
          ((d.downloaded_bytes.getD 0 * 100 / eventTotal d : Nat) : Int)
            ≠ st.last_percent
      · exact Or.inr (Or.inl ⟨by rw [if_pos hp], ht⟩)
      · exact Or.inl (by rw [if_neg hp])
    · exact Or.inl (by rw [if_neg ht])
  · by_cases hf : d.status = "finished"
    · simp [hs, hf]
    · simp [hs, hf]

theorem hook_percent_range (st : HookState) (d : RawEvent) (p : Int)
    (ph : String) (h : (hook st d).2 = some (p, ph)) :
    0 ≤ p ∧
    (d.downloaded_bytes.getD 0 ≤ eventTotal d → p ≤ 100) ∧
    (ph = "processing" → p = 100) := by
  rcases hook_emission_cases st d with hc | ⟨hc, ht⟩ | hc <;> rw [hc] at h
  · exact absurd h (by simp)
  · simp only [Option.some.injEq, Prod.mk.injEq] at h
    obtain ⟨hp, hph⟩ := h
    refine ⟨by rw [← hp]; exact Int.natCast_nonneg _, ?_, ?_⟩
    · intro hle
      rw [← hp]
      have hnat : d.downloaded_bytes.getD 0 * 100 / eventTotal d ≤ 100 := by
        calc d.downloaded_bytes.getD 0 * 100 / eventTotal d
            ≤ eventTotal d * 100 / eventTotal d :=
              Nat.div_le_div_right (Nat.mul_le_mul_right 100 hle)
          _ = 100 := Nat.mul_div_cancel_left 100 ht
      exact_mod_cast hnat
    · intro hcontra
      rw [← hph] at hcontra
      exact absurd hcontra (by decide)
  · simp only [Option.some.injEq, Prod.mk.injEq] at h
    obtain ⟨hp, hph⟩ := h
    exact ⟨by omega, fun _ => by omega, fun _ => by omega⟩

/-- Witness for C7 (amended) at a concrete in-range event. -/
theorem hook_percent_range_witness :
    (0 : Int) ≤ 50 ∧
    ((50 : Nat) ≤ 100 → (50 : Int) ≤ 100) ∧
    ("downloading" = "processing" → (50 : Int) = 100) := by
  have h := hook_percent_range ⟨-1⟩ ⟨"downloading", some 100, none, some 50⟩
    50 "downloading" (by rfl)
  simp only [eventTotal, Option.getD] at h
  exact h

/-! ## Progress throttling loop (`bot.py`, `update_progress`)

The async loop sleeps 2 seconds, reads the raw shared percent under the
lock, and when it differs from `last_shown` updates `last_shown` and calls
the observer (`edit_text`) — with a `Downloading... p%` text for `p < 100`
and the terminal `Processing...` text otherwise — then breaks once the
sample is ≥ 100.  We embed one loop iteration per element of the list of
sampled raw values and collect the observer invocations (percent at the
call, text kind). -/

/-- Embeds `update_progress` from `bot.py`: given `last_shown` and the successive
sampled raw values, the list of observer calls made before the loop
terminates (or the samples run out). -/
def update_progress (lastShown : Int) : List Int → List (Int × String)
  | [] => []
  | p :: rest =>
    if p ≠ lastShown then
      if 100 ≤ p then [(p, "processing")]
      else (p, "downloading") :: update_progress p rest
    else
      if 100 ≤ p then [] else update_progress lastShown rest

theorem update_progress_head (l : Int) (s : List Int) (e : Int × String)
    (h : (update_progress l s).head? = some e) : e.1 ≠ l := by
  induction s generalizing l with
  | nil => simp [update_progress] at h
  | cons p rest ih =>
    by_cases hp : p ≠ l
    · by_cases h100 : 100 ≤ p
      · simp [update_progress, hp, h100] at h
        subst h
        exact hp
      · simp [update_progress, hp, h100] at h
        subst h
        exact hp
    · by_cases h100 : 100 ≤ p
      · simp [update_progress, hp, h100] at h
      · simp only [update_progress, if_neg hp, if_neg h100] at h
        exact ih l h

theorem update_progress_chain (l : Int) (s : List Int) :
    List.Chain' (fun a b => a.1 ≠ b.1) (update_progress l s) := by
  induction s generalizing l with
  | nil => simp [update_progress]
  | cons p rest ih =>
    by_cases hp : p ≠ l
    · by_cases h100 : 100 ≤ p
      · simp [update_progress, hp, h100]
      · simp only [update_progress, if_pos hp, if_neg h100]
        rw [List.chain'_cons']
        refine ⟨?_, ih p⟩
        intro e he
        exact (update_progress_head p rest e he).symm
    · by_cases h100 : 100 ≤ p
      · simp [update_progress, hp, h100]
      · simp only [update_progress, if_neg hp, if_neg h100]
        exact ih l

theorem update_progress_terminal (l : Int) (pre post : List Int) (p : Int)
    (hl : l < 100) (hpre : ∀ q ∈ pre, q < 100) (hp : 100 ≤ p) :
    update_progress l (pre ++ p :: post)
        = update_progress l pre ++ [(p, "processing")] ∧
    ∀ e ∈ update_progress l pre, e.2 = "downloading" := by
  induction pre generalizing l with
  | nil =>
    have hne : p ≠ l := by omega
    simp [update_progress, hne, hp]
  | cons q pre' ih =>
    have hq : q < 100 := hpre q (by simp)
    have hpre' : ∀ x ∈ pre', x < 100 := fun x hx => hpre x (by simp [hx])
    by_cases hql : q ≠ l
    · have hq100 : ¬ 100 ≤ q := by omega
      simp only [List.cons_append, update_progress, if_pos hql, if_neg hq100,
        List.append_eq]
      obtain ⟨h1, h2⟩ := ih q hq hpre'
      refine ⟨by rw [h1], ?_⟩
      intro e he
      rcases List.mem_cons.mp he with he | he
      · rw [he]
      · exact h2 e he
    · have hq100 : ¬ 100 ≤ q := by omega
      simp only [List.cons_append, update_progress, if_neg hql, if_neg hq100,
        List.append_eq]
      exact ih l hl hpre'

/-- C5: starting from the initial `last_shown = -1`, the observer is never
called twice in a row with the same percent value; and on the first sampled
value ≥ 100 the loop makes exactly one final `Processing` call (all earlier
calls being `Downloading` calls) and then stops — samples after the
terminal one produce no calls at all. -/
theorem update_progress_throttles (samples pre post : List Int) (p : Int)
    (hpre : ∀ q ∈ pre, q < 100) (hp : 100 ≤ p) :
    List.Chain' (fun a b => a.1 ≠ b.1) (update_progress (-1) samples) ∧
    update_progress (-1) (pre ++ p :: post)
        = update_progress (-1) pre ++ [(p, "processing")] ∧
    ∀ e ∈ update_progress (-1) pre, e.2 = "downloading" := by
  obtain ⟨h1, h2⟩ :=
    update_progress_terminal (-1) pre post p (by omega) hpre hp
  exact ⟨update_progress_chain (-1) samples, h1, h2⟩

/-- Witness for C5 on a concrete sample trace. -/
theorem update_progress_throttles_witness :
    List.Chain' (fun a b => a.1 ≠ b.1)
      (update_progress (-1) [10, 10, 55, 100, 120]) ∧
    update_progress (-1) ([10, 10, 55] ++ 100 :: [120])
        = update_progress (-1) [10, 10, 55] ++ [(100, "processing")] ∧
    ∀ e ∈ update_progress (-1) [10, 10, 55], e.2 = "downloading" :=
  update_progress_throttles [10, 10, 55, 100, 120] [10, 10, 55] [120] 100
    (by decide) (by decide)

/-! ## Format-selector chains (`downloader.py`, `download_video`)

`format_map` is the quality → yt-dlp format-selector dict; a selector
expression is a `/`-separated ranked fallback chain.  Strings are analysed
as character lists (`listStartsWith` / `containsSub` are plain substring
tests). -/

/-- The `"best"` entry of `format_map`. -/
def formatBest : String :=
  "bestvideo[vcodec^=avc1]+bestaudio[acodec^=mp4a]/bestvideo[vcodec^=avc1]+bestaudio/best[vcodec^=avc1]/best"

/-- The `"720p"` entry of `format_map`. -/
def format720 : String :=
  "bestvideo[height<=720][vcodec^=avc1]+bestaudio[acodec^=mp4a]/bestvideo[height<=720][vcodec^=avc1]+bestaudio/best[height<=720][vcodec^=avc1]/best[height<=720]"

/-- The `"480p"` entry of `format_map`. -/
def format480 : String :=
  "bestvideo[height<=480][vcodec^=avc1]+bestaudio[acodec^=mp4a]/bestvideo[height<=480][vcodec^=avc1]+bestaudio/best[height<=480][vcodec^=avc1]/best[height<=480]"

/-- The `format_map` dict from `download_video`. -/
def format_map : List (String × String) :=
  [("best", formatBest), ("720p", format720), ("480p", format480)]

/-- Embeds `format_map.get(quality, format_map["best"])`. -/
def formatFor (quality : String) : String :=
  ((format_map.find? (fun p => p.1 = quality)).map (fun p => p.2)).getD
    formatBest

/-- Does `pat` occur at the start of `s`? -/
def listStartsWith : List Char → List Char → Bool
  | [], _ => true
  | _ :: _, [] => false
  | p :: ps, c :: cs => p = c && listStartsWith ps cs

/-- Does `pat` occur anywhere in `s`? -/
def containsSub (pat : List Char) : List Char → Bool
  | [] => listStartsWith pat []
  | c :: rest => listStartsWith pat (c :: rest) || containsSub pat rest

/-- Split a character list on `/`. -/
def splitOnSlash : List Char → List (List Char)
  | [] => [[]]
  | c :: rest =>
    if c = '/' then [] :: splitOnSlash rest
    else
      match splitOnSlash rest with
      | [] => [[c]]
      | g :: gs => (c :: g) :: gs

/-- The ranked selector chain of a format expression. -/
def selectors (f : String) : List (List Char) := splitOnSlash f.toList

/-- Selector constrains the video codec to the preferred H.264 family
(`[vcodec^=avc1]`). -/
def hasVcodecFilter (s : List Char) : Bool :=
  containsSub "[vcodec^=avc1]".toList s

/-- Selector constrains the audio codec (`[acodec^=mp4a]`). -/
def hasAcodecFilter (s : List Char) : Bool :=
  containsSub "[acodec^=mp4a]".toList s

/-- Selector is a video+audio merge (`+`). -/
def isMergeSelector (s : List Char) : Bool := containsSub ['+'] s

/-- The chain shape the specification claims: exact-codec+exact-audio,
exact-codec+any-audio, any-codec-at-resolution, unconstrained. -/
def claimedChainShape (f : String) : Bool :=
  match selectors f with
  | [s1, s2, s3, s4] =>
    hasVcodecFilter s1 && hasAcodecFilter s1 && isMergeSelector s1 &&
    hasVcodecFilter s2 && !hasAcodecFilter s2 && isMergeSelector s2 &&
    !hasVcodecFilter s3 &&
    !hasVcodecFilter s4 && !hasAcodecFilter s4 && !isMergeSelector s4
  | _ => false

/-- The chain shape the code actually builds: exact-codec+exact-audio,
exact-codec+any-audio, combined-format-with-exact-codec, and a final
selector with no codec constraint. -/
def actualChainShape (f : String) : Bool :=
  match selectors f with
  | [s1, s2, s3, s4] =>
    hasVcodecFilter s1 && hasAcodecFilter s1 && isMergeSelector s1 &&
    hasVcodecFilter s2 && !hasAcodecFilter s2 && isMergeSelector s2 &&
    hasVcodecFilter s3 && !isMergeSelector s3 &&
    !hasVcodecFilter s4 && !hasAcodecFilter s4 && !isMergeSelector s4
  | _ => false

theorem formatFor_cases (q : String) :
    formatFor q = formatBest ∨ formatFor q = format720 ∨
    formatFor q = format480 := by
  simp only [formatFor, format_map, List.find?]
  by_cases h1 : "best" = q
  · simp [h1]
  · by_cases h2 : "720p" = q
    · simp [h1, h2]
    · by_cases h3 : "480p" = q
      · simp [h1, h2, h3]
      · simp [h1, h2, h3]

/-- C6 counterexample: in the `"best"` tier the third selector is *not*
"any-codec-at-resolution" — it still carries the `[vcodec^=avc1]`
constraint — so the claimed chain shape fails on the selector
expression. -/
theorem format_chain_shape_counterexample :
    claimedChainShape (formatFor "best") = false ∧
    (selectors (formatFor "best")).get? 2
        = some "best[vcodec^=avc1]".toList ∧
    hasVcodecFilter "best[vcodec^=avc1]".toList = true := by
  refine ⟨by decide, by decide, by decide⟩

/-- C6 (amended): for every quality tier the selector expression is the
ranked chain exact-codec+exact-audio, exact-codec+any-audio,
combined-format-with-exact-codec, then a final selector with no codec (or
audio, or merge) constraint — so if every preferred-codec selector yields
no stream, the final codec-unconstrained selector remains. -/
theorem format_fallback_chain (q : String) :
    actualChainShape (formatFor q) = true ∧
    (∃ s, (selectors (formatFor q)).getLast? = some s ∧
      hasVcodecFilter s = false) := by
  rcases formatFor_cases q with h | h | h <;> rw [h]
  · exact ⟨by decide, ⟨"best".toList, by decide, by decide⟩⟩
  · exact ⟨by decide, ⟨"best[height<=720]".toList, by decide, by decide⟩⟩
  · exact ⟨by decide, ⟨"best[height<=480]".toList, by decide, by decide⟩⟩

/-- C9: an unrecognised quality string falls back to the `"best"` tier
chain (no failure, no rejection). -/
theorem format_unknown_quality_falls_back (q : String)
    (h1 : q ≠ "best") (h2 : q ≠ "720p") (h3 : q ≠ "480p") :
    formatFor q = formatFor "best" := by
  simp only [formatFor, format_map, List.find?]
  simp [Ne.symm h1, Ne.symm h2, Ne.symm h3]

/-- Witness for C9 at the concrete quality string `"1080p"`. -/
theorem format_unknown_quality_falls_back_witness :
    formatFor "1080p" = formatFor "best" :=
  format_unknown_quality_falls_back "1080p" (by decide) (by decide)
    (by decide)

/-! ## Post-download re-encode step (`downloader.py`, `download_video`)

When the `vcodec` of the downloaded container is outside the `avc` family,
`download_video` runs `ffmpeg` (with `check=True`) writing to the
side-by-side path `final_path.with_stem(final_path.stem + "_h264")`, then
`final_path.unlink()` and `h264_path.rename(final_path)`.  A non-zero exit
raises `CalledProcessError` out of `download_video` (nothing catches it)
before the unlink/rename run.  The filesystem is a map from path to file
bytes, and the external `ffmpeg` process is a parameter returning a
success flag and the filesystem it leaves behind, constrained to write
only at its output path. -/

/-- Filesystem state: path → file contents (`none` when absent). -/
abbrev FS := String → Option (List Nat)

/-- The re-encode block of `download_video`: run ffmpeg into the side
path; on success delete the original and rename the side output onto the
canonical path; on failure raise, leaving the filesystem as ffmpeg left
it.  Returns (success flag surfaced to the caller, resulting
filesystem). -/
def reencode (ffmpeg : FS → String → String → Bool × FS) (fs : FS)
    (finalPath h264Path : String) : Bool × FS :=
  let r := ffmpeg fs finalPath h264Path
  if r.1 then
    (true, fun p =>
      if p = h264Path then none
      else if p = finalPath then r.2 h264Path
      else r.2 p)
  else (false, r.2)

theorem h264_path_ne_final (stem ext : String) :
    stem ++ "_h264" ++ ext ≠ stem ++ ext := by
  intro h
  have hlen := congrArg String.length h
  simp only [String.length_append] at hlen
  have h5 : "_h264".length = 5 := rfl
  omega

/-- C2: with `ffmpeg` writing only at its output path, the re-encode step
surfaces the ffmpeg exit status to the caller; on failure the canonical
artifact file is byte-identical to its state before the attempt; and on
success the canonical path holds exactly the bytes ffmpeg completed at the
side path (never a partial write at the canonical path). -/
theorem reencode_all_or_nothing (ffmpeg : FS → String → String → Bool × FS)
    (hframe : ∀ fs inp outp p, p ≠ outp →
      ((ffmpeg fs inp outp).2) p = fs p)
    (fs : FS) (stem ext : String) :
    (reencode ffmpeg fs (stem ++ ext) (stem ++ "_h264" ++ ext)).1
        = (ffmpeg fs (stem ++ ext) (stem ++ "_h264" ++ ext)).1 ∧
    ((ffmpeg fs (stem ++ ext) (stem ++ "_h264" ++ ext)).1 = false →
      (reencode ffmpeg fs (stem ++ ext) (stem ++ "_h264" ++ ext)).2
          (stem ++ ext) = fs (stem ++ ext)) ∧
    ((ffmpeg fs (stem ++ ext) (stem ++ "_h264" ++ ext)).1 = true →
      (reencode ffmpeg fs (stem ++ ext) (stem ++ "_h264" ++ ext)).2
          (stem ++ ext)
        = (ffmpeg fs (stem ++ ext) (stem ++ "_h264" ++ ext)).2
            (stem ++ "_h264" ++ ext)) := by
  have hne : stem ++ ext ≠ stem ++ "_h264" ++ ext :=
    fun h => h264_path_ne_final stem ext h.symm
  by_cases hF : (ffmpeg fs (stem ++ ext) (stem ++ "_h264" ++ ext)).1 = true
  · refine ⟨?_, ?_, ?_⟩
    · simp [reencode, hF]
    · intro hcontra
      rw [hF] at hcontra
      exact absurd hcontra (by decide)
    · intro _
      simp only [reencode, hF, if_true]
      rw [if_neg hne]
  · have hF' : (ffmpeg fs (stem ++ ext) (stem ++ "_h264" ++ ext)).1
        = false := by
      simpa using hF
    refine ⟨?_, ?_, ?_⟩
    · simp [reencode, hF']
    · intro _
      simp only [reencode, hF', Bool.false_eq_true, if_false]
      exact hframe fs (stem ++ ext) (stem ++ "_h264" ++ ext) (stem ++ ext)
        hne
    · intro hcontra
      rw [hF'] at hcontra
      exact absurd hcontra (by decide)

/-- Witness for C2: a concrete ffmpeg that fails after leaving a partial
temp file; the bytes of the canonical artifact survive unchanged. -/
theorem reencode_all_or_nothing_witness :
    (reencode
        (fun fs _ outp => (false, fun p => if p = outp then some [0] else fs p))
        (fun p => if p = "v" ++ ".mp4" then some [1, 2, 3] else none)
        ("v" ++ ".mp4") ("v" ++ "_h264" ++ ".mp4")).2 ("v" ++ ".mp4")
      = some [1, 2, 3] := by
  have h := reencode_all_or_nothing
    (fun fs _ outp => (false, fun p => if p = outp then some [0] else fs p))
    (fun fs inp outp p hp => by simp [if_neg hp])
    (fun p => if p = "v" ++ ".mp4" then some [1, 2, 3] else none)
    "v" ".mp4"
  rw [h.2.1 rfl]
  simp

/-! ## Static file server (`fileserver.py`)

`handle_download` percent-decodes the matched `{filename}` segment, joins
it to `DOWNLOAD_DIR` (a join with an absolute argument replaces the base,
as `pathlib` does), resolves it, and checks containment via
`resolve().relative_to(DOWNLOAD_DIR.resolve())` *before* probing
existence.  Paths are embedded as segment lists from the filesystem root;
`resolve` is embedded as lexical normalisation of `.`/`..`/empty segments
(clamping `..` at the root, as `Path.resolve` does); the percent decoder
is byte-level (faithful on ASCII).  The filesystem is a map from resolved
segment lists to entries. -/

/-- Value of an ASCII hex digit. -/
def hexDigit (c : Char) : Option Nat :=
  if '0' ≤ c ∧ c ≤ '9' then some (c.toNat - '0'.toNat)
  else if 'a' ≤ c ∧ c ≤ 'f' then some (c.toNat - 'a'.toNat + 10)
  else if 'A' ≤ c ∧ c ≤ 'F' then some (c.toNat - 'A'.toNat + 10)
  else none

/-- Embeds `urllib.parse.unquote`: decode `%XX` escapes, leaving invalid escapes
untouched. -/
def percentDecodeChars : List Char → List Char
  | [] => []
  | '%' :: a :: b :: rest =>
    match hexDigit a, hexDigit b with
    | some x, some y => Char.ofNat (16 * x + y) :: percentDecodeChars rest
    | _, _ => '%' :: percentDecodeChars (a :: b :: rest)
  | '%' :: rest => '%' :: percentDecodeChars rest
  | c :: rest => c :: percentDecodeChars rest

/-- Lexical resolution: fold path segments over a base, skipping empty and
`.` segments and letting `..` drop the last segment (clamped at the
filesystem root, as `Path.resolve` clamps at `/`). -/
def resolveSegs (acc : List String) : List String → List String
  | [] => acc
  | s :: rest =>
    if s = "" ∨ s = "." then resolveSegs acc rest
    else if s = ".." then resolveSegs acc.dropLast rest
    else resolveSegs (acc ++ [s]) rest

/-- Embeds `(DOWNLOAD_DIR / unquote(filename)).resolve()` as resolved segments:
an absolute decoded name replaces the base (pathlib join semantics). -/
def resolvedPath (root : List String) (filename : String) : List String :=
  let decoded := percentDecodeChars filename.toList
  let segs := (splitOnSlash decoded).map (fun g => String.mk g)
  match decoded with
  | '/' :: _ => resolveSegs [] segs
  | _ => resolveSegs root segs

/-- A filesystem entry: regular file or directory. -/
inductive Entry where
  | file
  | dir
deriving DecidableEq

/-- Filesystem contents at resolved paths. -/
abbrev FileTree := List String → Option Entry

/-- Embeds `handle_download`: 403 when the resolved path escapes the resolved
root (`relative_to` raises), else 404 unless an existing regular file,
else 200 (the `FileResponse`). -/
def handle_download (fs : FileTree) (root : List String)
    (filename : String) : Nat :=
  let rpath := resolvedPath root filename
  if root.isPrefixOf rpath = false then 403
  else if fs rpath ≠ some Entry.file then 404
  else 200

/-- C1: requests resolving outside the root give 403 no matter what the
filesystem holds (the containment verdict is independent of filesystem
state, i.e. decided before any existence probe); in-root paths that are
not existing regular files give 404; in-root regular files give 200; and
no status other than 403/404/200 is produced. -/
theorem handle_download_security (fs fs' : FileTree) (root : List String)
    (filename : String) :
    (root.isPrefixOf (resolvedPath root filename) = false →
      handle_download fs root filename = 403 ∧
      handle_download fs' root filename = 403) ∧
    (root.isPrefixOf (resolvedPath root filename) = true →
      fs (resolvedPath root filename) ≠ some Entry.file →
      handle_download fs root filename = 404) ∧
    (root.isPrefixOf (resolvedPath root filename) = true →
      fs (resolvedPath root filename) = some Entry.file →
      handle_download fs root filename = 200) ∧
    (handle_download fs root filename = 403 ∨
     handle_download fs root filename = 404 ∨
     handle_download fs root filename = 200) := by
  refine ⟨?_, ?_, ?_, ?_⟩
  · intro h
    constructor <;> simp [handle_download, h]
  · intro h hne
    simp [handle_download, h, hne]
  · intro h hfile
    simp [handle_download, h, hfile]
  · by_cases h : root.isPrefixOf (resolvedPath root filename) = false
    · exact Or.inl (by simp [handle_download, h])
    · rw [Bool.not_eq_false] at h
      by_cases hf : fs (resolvedPath root filename) = some Entry.file
      · exact Or.inr (Or.inr (by simp [handle_download, h, hf]))
      · exact Or.inr (Or.inl (by simp [handle_download, h, hf]))

/-- Witness for C1: an encoded `../../../etc/passwd` traversal under a
three-segment root gives 403 with any filesystem, and a well-formed
missing name gives 404. -/
theorem handle_download_security_witness :
    handle_download (fun _ => none) ["home", "u", "dl"]
        "..%2F..%2F..%2Fetc%2Fpasswd" = 403 ∧
    handle_download (fun _ => none) ["home", "u", "dl"] "video.mp4"
        = 404 := by
  constructor
  · exact ((handle_download_security (fun _ => none) (fun _ => none)
      ["home", "u", "dl"] "..%2F..%2F..%2Fetc%2Fpasswd").1 (by decide)).1
  · exact (handle_download_security (fun _ => none) (fun _ => none)
      ["home", "u", "dl"] "video.mp4").2.1 (by decide) (by decide)

/-! ## Index listing (`fileserver.py`, `handle_index`)

`handle_index` sorts *all* directory entries by modification time
descending (the Python `sorted` is stable; `reverse=True` keeps the original
order among equal keys, as insertion sort with a `≥`-style total preorder
does), truncates to the first 20, and renders only the regular files
among those 20, each as a percent-encoded link whose text is the
XML-escaped name, followed by the size in MiB to one decimal
(`f-string` `:.1f`, round-half-even — exact because dividing by the power
of two 1048576 is exact in binary floating point). -/

/-- One `DOWNLOAD_DIR.glob("*")` result: name, mtime, kind, size. -/
structure DirEntry where
  name : String
  mtime : Nat
  kind : Entry
  size : Nat
deriving DecidableEq

instance : DecidableRel (fun a b : DirEntry => b.mtime ≤ a.mtime) :=
  fun a b => Nat.decLe b.mtime a.mtime

instance : IsTotal DirEntry (fun a b => b.mtime ≤ a.mtime) :=
  ⟨fun a b => Nat.le_total b.mtime a.mtime⟩

instance : IsTrans DirEntry (fun a b => b.mtime ≤ a.mtime) :=
  ⟨fun _ _ _ hab hbc => Nat.le_trans hbc hab⟩

/-- Embeds `sorted(..., key=mtime, reverse=True)`: stable descending sort. -/
def sortByMtimeDesc (l : List DirEntry) : List DirEntry :=
  List.insertionSort (fun a b => b.mtime ≤ a.mtime) l

/-- Upper-case hex digit. -/
def hexUpper (n : Nat) : Char :=
  if n < 10 then Char.ofNat ('0'.toNat + n)
  else Char.ofNat ('A'.toNat + n - 10)

/-- Embeds `urllib.parse.quote` on one character (default `safe="/"`; byte-level,
faithful on ASCII). -/
def quoteChar (c : Char) : List Char :=
  if ('A' ≤ c ∧ c ≤ 'Z') ∨ ('a' ≤ c ∧ c ≤ 'z') ∨ ('0' ≤ c ∧ c ≤ '9') ∨
      c = '-' ∨ c = '.' ∨ c = '_' ∨ c = '~' ∨ c = '/' then [c]
  else ['%', hexUpper (c.toNat / 16), hexUpper (c.toNat % 16)]

/-- Embeds `urllib.parse.quote`. -/
def urlQuote (s : String) : String :=
  String.mk ((s.toList.map quoteChar).foldr List.append [])

/-- Embeds `xml.sax.saxutils.escape` on one character. -/
def xmlEscapeChar (c : Char) : List Char :=
  if c = '&' then "&amp;".toList
  else if c = '<' then "&lt;".toList
  else if c = '>' then "&gt;".toList
  else [c]

/-- Embeds `xml.sax.saxutils.escape`. -/
def xmlEscape (s : String) : String :=
  String.mk ((s.toList.map xmlEscapeChar).foldr List.append [])

/-- Embeds `f"{bytes/1048576:.1f}"`: MiB to one decimal, round-half-even (the
binary-float division by 2^20 is exact, so this is exact rounding of the
rational value). -/
def formatMiB1 (bytes : Nat) : String :=
  let q := bytes * 10 / 1048576
  let r := bytes * 10 % 1048576
  let tenths :=
    if 524288 < r then q + 1
    else if r < 524288 then q
    else if q % 2 = 0 then q else q + 1
  toString (tenths / 10) ++ "." ++ toString (tenths % 10)

/-- One `<li>` item of the listing page. -/
def renderEntry (f : DirEntry) : String :=
  "<li><a href=\"/download/" ++ urlQuote f.name ++ "\">" ++
    xmlEscape f.name ++ "</a> (" ++ formatMiB1 f.size ++ " MB)</li>"

/-- The items the code renders: regular files among the first 20 of the
descending-mtime sort of *all* entries. -/
def indexItems (entries : List DirEntry) : List String :=
  ((sortByMtimeDesc entries).take 20).filterMap
    (fun f => if f.kind = Entry.file then some (renderEntry f) else none)

/-- Embeds `handle_index`: the full HTML page. -/
def handle_index (entries : List DirEntry) : String :=
  "<html><head><title>Downloads</title></head><body>" ++
    "<h1>Downloaded Files</h1><ul>" ++
    String.join (indexItems entries) ++
    "</ul></body></html>"

/-- Modelled from the spec, for comparison: the 20 most recently
modified *files* (directories excluded before truncation). -/
def indexItemsSpecListing (entries : List DirEntry) : List String :=
  ((sortByMtimeDesc
      (entries.filter (fun f => f.kind = Entry.file))).take 20).map
    renderEntry

/-- A directory state with 20 directories newer than the lone regular
file. -/
def crowdedDir : List DirEntry :=
  List.replicate 20 ⟨"d", 50, Entry.dir, 0⟩ ++ [⟨"f.mp4", 1, Entry.file, 7⟩]

/-- C8 counterexample: with 20 directories more recent than the only
file, the page lists nothing, while the claimed "20 most recently
modified files" listing would show the file. -/
theorem handle_index_not_top20_files :
    indexItems crowdedDir = [] ∧
    indexItemsSpecListing crowdedDir
        = [renderEntry ⟨"f.mp4", 1, Entry.file, 7⟩] ∧
    handle_index crowdedDir =
      "<html><head><title>Downloads</title></head><body>" ++
        "<h1>Downloaded Files</h1><ul>" ++ "</ul></body></html>" := by
  refine ⟨by decide, by decide, ?_⟩
  rfl

/-- C8 (amended): the page is the fixed HTML shell around the rendered
items, and the items are exactly the regular files among the first 20
entries of a mtime-descending permutation of the whole directory, each
rendered as a percent-encoded link with XML-escaped text and the size in
MiB to one decimal. -/
theorem handle_index_listing (entries : List DirEntry) :
    ∃ sorted : List DirEntry,
      sorted.Perm entries ∧
      List.Sorted (fun a b => b.mtime ≤ a.mtime) sorted ∧
      handle_index entries =
        "<html><head><title>Downloads</title></head><body>" ++
          "<h1>Downloaded Files</h1><ul>" ++
          String.join ((sorted.take 20).filterMap
            (fun f => if f.kind = Entry.file then some (renderEntry f)
              else none)) ++
          "</ul></body></html>" :=
  ⟨sortByMtimeDesc entries,
    List.perm_insertionSort _ _,
    List.sorted_insertionSort _ _,
    rfl⟩

end YtBot
